import Mathlib

/-
Verification of the OutlookAutomation repository (src/OutlookAutomation.py)
against its natural-language specification.

The development shallowly embeds the two core functions:
  - download_office365_attachments : the paginated mail fetcher, modelled over
    an abstract API environment (pages of message ids, a per-id detail oracle,
    and the external HTML text collaborator), threading the staging disk and
    the two in-memory dictionaries, with request failures raising into the
    surrounding try/except (modelled with Except carrying the accumulated
    state).
  - filter_office365_attachments : the classifier, modelled as a fold over a
    snapshot of the staging listing, over a filesystem state record, with
    Python exceptions (KeyError on mail_dict, missing config label, missing
    source file) modelled as a short-circuiting error component.

Python dicts are insertion-ordered association lists; Python string operators
(substring membership, startswith, splitext, strip, lower) are implemented on
character lists.
-/

/-- Boolean test that the first character list is a leading segment of the
second; used to build the Python substring and startswith operators. -/
def isPre : List Char → List Char → Bool
  | [], _ => true
  | _ :: _, [] => false
  | a :: as, b :: bs => a == b && isPre as bs

/-- Python `needle in hay` on character lists: the needle occurs contiguously
somewhere in the hay. -/
def infixIn (needle : List Char) : List Char → Bool
  | [] => isPre needle []
  | b :: t => isPre needle (b :: t) || infixIn needle t

/-- Python `needle in hay` / `hay.find(needle) != -1` on strings. -/
def strIn (needle hay : String) : Bool :=
  infixIn needle.data hay.data

/-- Python `s.startswith(t)`. -/
def strStarts (s t : String) : Bool :=
  isPre t.data s.data

/-- Lookup in an insertion-ordered association list (Python dict read). -/
def alookup {α : Type} (k : String) : List (String × α) → Option α
  | [] => none
  | p :: ps => if p.1 = k then some p.2 else alookup k ps

/-- Python dict assignment `d[k] = v`: update in place when the key exists,
append at the end otherwise. -/
def dinsert {α : Type} (d : List (String × α)) (k : String) (v : α) :
    List (String × α) :=
  if (alookup k d).isSome then
    d.map (fun p => if p.1 = k then (k, v) else p)
  else d ++ [(k, v)]

/-- Index of the last occurrence of a character in a list, if any. -/
def rlastIdxOf (c : Char) (l : List Char) : Option Nat :=
  match l.reverse.findIdx? (fun x => x == c) with
  | none => none
  | some j => some (l.length - 1 - j)

/-- Position where `os.path.splitext` splits a bare file name (no separators):
the last dot, provided some earlier character is not a dot; `none` when the
name has no extension. -/
def splitDotIdx (l : List Char) : Option Nat :=
  match rlastIdxOf '.' l with
  | none => none
  | some d => if (l.take d).any (fun x => x != '.') then some d else none

/-- Python `os.path.splitext(name)[0]` for a bare file name. -/
def splitextStem (name : String) : String :=
  match splitDotIdx name.data with
  | none => name
  | some d => String.mk (name.data.take d)

/-- Python `os.path.splitext(name)[1]` for a bare file name, as characters. -/
def splitextExt (name : String) : List Char :=
  match splitDotIdx name.data with
  | none => []
  | some d => name.data.drop d

/-- Python `os.path.splitext(name)[1].lower()`. -/
def extOf (name : String) : List Char :=
  (splitextExt name).map Char.toLower

/-- ASCII whitespace, for the Python `str.strip` model. -/
def isWS (c : Char) : Bool :=
  c == ' ' || c == '\t' || c == '\n' || c == '\r' || c == '\x0b' || c == '\x0c'

/-- Python `s.strip()`: drop leading and trailing whitespace. -/
def pyStrip (s : String) : String :=
  String.mk (((s.data.dropWhile isWS).reverse.dropWhile isWS).reverse)

/-- Embedding of `extract_text_from_html`: BeautifulSoup's
`get_text(separator=&#39; &#39;)` is the external collaborator `getText`; the
function strips the result. -/
def extract_text_from_html (getText : String → String) (html : String) : String :=
  pyStrip (getText html)

/-- The `Subject_filter` table of `filter_office365_attachments`, in its
declared order. -/
def Subject_filter : List (String × String) :=
  [("[Not Virus Scanned] Ahli Bank -  Statement , Portfolio ", "Ahli"),
   ("[Not Virus Scanned] WOQOD - Fahes - Account Statement & Portfolio", "Fahes"),
   ("[Not Virus Scanned] Ahli Brokerage - Ardh Al Khaleej", "Waqod")]

/-- The `BodyTitle_filter` table, in its declared order. -/
def BodyTitle_filter : List (String × String) :=
  [("CIVIL FUND - QINVEST", "Civil I"),
   ("GIRAFFA QIC", "Giraffa"),
   ("OQIC", "Oman"),
   ("MILITARY FUND - QINVEST / N", "Military I"),
   ("QATAR INSURANCE COMPANY S.A.Q", "QIC"),
   ("RASLAFFAN OPERATING COMPANY WLL", "QEWC")]

/-- The `DocName_filter` table. -/
def DocName_filter : List (String × String) :=
  [("170792", "Pension C"),
   ("170793", "Pension M")]

/-- One `mail_dict` entry: sender, receive date, subject and (extracted) body. -/
structure MailInfo where
  sender : String
  date : String
  subject : String
  body : String
deriving DecidableEq

/-- Filesystem state seen by the classifier: file names in the staging root,
files inside the `Unclassified` subfolder, whether that subfolder exists,
files copied into each destination directory, and whether the staging
directory was removed at the end. -/
structure FS where
  staging : List String
  unclassified : List String
  unclassifiedCreated : Bool
  dests : List (String × List String)
  removedStaging : Bool
deriving DecidableEq

/-- Python exceptions the classifier can raise: `KeyError` on
`mail_dict[key]`, a missing label in `PortfoliosPath.json`, and a missing
source file for `shutil.copy` / `os.remove` / `shutil.move`. -/
inductive CErr where
  | keyError
  | configError
  | fileNotFound
deriving DecidableEq

/-- Writing a file into a destination directory (set-like: overwriting an
existing name leaves one copy). -/
def addDest (ds : List (String × List String)) (dest f : String) :
    List (String × List String) :=
  match alookup dest ds with
  | none => ds ++ [(dest, [f])]
  | some _ =>
    ds.map (fun p => if p.1 = dest then (p.1, if f ∈ p.2 then p.2 else p.2 ++ [f]) else p)

/-- The shared copy-then-delete branch body of `filter_office365_attachments`:
read `PortfoliosPath.json` (modelled as the fixed map `cfg`), look up the
label (KeyError when absent), `os.makedirs` the destination, `shutil.copy`
the staged file there and `os.remove` it from staging; both file operations
need the source file to exist. -/
def routeCopy (cfg : List (String × String)) (fs : FS) (f lab : String) :
    FS × Option CErr :=
  match alookup lab cfg with
  | none => (fs, some CErr.configError)
  | some dest =>
    if f ∈ fs.staging then
      ({ fs with staging := fs.staging.erase f, dests := addDest fs.dests dest f }, none)
    else (fs, some CErr.fileNotFound)

/-- The unclassified branch: `os.makedirs` the `Unclassified` subfolder (this
side effect happens even when the following move fails) and `shutil.move`
the file into it. -/
def moveToUnclassified (fs : FS) (f : String) : FS × Option CErr :=
  let fs1 := { fs with unclassifiedCreated := true }
  if f ∈ fs1.staging then
    let u2 := if f ∈ fs1.unclassified then fs1.unclassified else fs1.unclassified ++ [f]
    ({ fs1 with staging := fs1.staging.erase f, unclassified := u2 }, none)
  else (fs1, some CErr.fileNotFound)

/-- The inner `subjectCheck`: first `Subject_filter` entry whose key occurs in
the message subject (`subject.find(key) != -1`). -/
def subjectCheck (m : MailInfo) : Option (String × String) :=
  Subject_filter.find? (fun p => strIn p.1 m.subject)

/-- The inner `bodyTitleCheck`: first `BodyTitle_filter` entry whose key the
message body starts with. -/
def bodyTitleCheck (m : MailInfo) : Option (String × String) :=
  BodyTitle_filter.find? (fun p => strStarts m.body p.1)

/-- The body of the `for key in matching_keys` loop: `mail_dict[key]` is read
inside both checks (the tables are non-empty literals, so a missing key
raises `KeyError`); then the four tiers in their `if`/`elif`/`else` order. -/
def classifyKey (cfg : List (String × String)) (mail : List (String × MailInfo))
    (fs : FS) (f k : String) : FS × Option CErr :=
  match alookup k mail with
  | none => (fs, some CErr.keyError)
  | some m =>
    match subjectCheck m with
    | some p => routeCopy cfg fs f p.2
    | none =>
      match bodyTitleCheck m with
      | some p => routeCopy cfg fs f p.2
      | none =>
        match alookup (splitextStem f) DocName_filter with
        | some lab => routeCopy cfg fs f lab
        | none => moveToUnclassified fs f

/-- The `for key in matching_keys` loop; a raised exception aborts it. -/
def classifyKeys (cfg : List (String × String)) (mail : List (String × MailInfo))
    (f : String) : FS → List String → FS × Option CErr
  | fs, [] => (fs, none)
  | fs, k :: ks =>
    match classifyKey cfg mail fs f k with
    | (fs1, none) => classifyKeys cfg mail f fs1 ks
    | r => r

/-- The `matching_keys` computation: every `attachment_dict` key whose value
list has some member containing the staged name as a substring
(`any(attachment in string for string in value)`). -/
def matchingKeys (attach : List (String × List String)) (f : String) : List String :=
  (attach.filter (fun kv => kv.2.any (fun s => strIn f s))).map Prod.fst

/-- Processing of one staged file: compute its matching keys and run the key
loop. -/
def classifyFile (cfg : List (String × String)) (mail : List (String × MailInfo))
    (attach : List (String × List String)) (fs : FS) (f : String) : FS × Option CErr :=
  classifyKeys cfg mail f fs (matchingKeys attach f)

/-- The outer `for attachment in os.listdir(path)` loop over the snapshot of
the staging listing; a raised exception aborts the whole loop. -/
def classifyFiles (cfg : List (String × String)) (mail : List (String × MailInfo))
    (attach : List (String × List String)) : FS → List String → FS × Option CErr
  | fs, [] => (fs, none)
  | fs, f :: rest =>
    match classifyFile cfg mail attach fs f with
    | (fs1, none) => classifyFiles cfg mail attach fs1 rest
    | r => r

/-- Embedding of `filter_office365_attachments`: iterate over the initial
staging listing, then remove the staging directory when `os.listdir` is empty
(no files left and no `Unclassified` subfolder). -/
def filter_office365_attachments (cfg : List (String × String))
    (mail : List (String × MailInfo)) (attach : List (String × List String))
    (fs0 : FS) : FS × Option CErr :=
  match classifyFiles cfg mail attach fs0 fs0.staging with
  | (fs, none) =>
    if fs.staging = [] ∧ fs.unclassifiedCreated = false then
      ({ fs with removedStaging := true }, none)
    else (fs, none)
  | r => r

/-- One attachment record in a message detail response: name, declared
content type (read but unused by the code), and whether its download request
succeeds. -/
structure AttachmentInfo where
  name : String
  contentType : String
  downloadOk : Bool
deriving DecidableEq

/-- A message detail response. -/
structure EmailData where
  attachments : List AttachmentInfo
  sender : String
  date : String
  subject : String
  body : String
  bodyContentType : String
deriving DecidableEq

/-- One page of the message-list endpoint: message ids in server order, and
whether the listing response carries an `@odata.nextLink` cursor (pointing at
the following page). -/
structure Page where
  msgs : List String
  hasNext : Bool

/-- Abstract mail API environment: the sequence of listing pages (`none` is a
listing request that fails), the per-id detail oracle (`none` is a failing
detail request), and the external BeautifulSoup text collaborator. -/
structure ApiEnv where
  pages : List (Option Page)
  detail : String → Option EmailData
  getText : String → String

/-- Accumulated fetch state: `mail_dict`, `attachment_dict`, and the set of
file names written into the staging directory. -/
structure FetchSt where
  mail : List (String × MailInfo)
  attach : List (String × List String)
  disk : List String
deriving DecidableEq

/-- Writing a file to staging (overwrite keeps one copy of the name). -/
def diskWrite (disk : List String) (n : String) : List String :=
  if n ∈ disk then disk else disk ++ [n]

/-- The attachment loop of one message: keep names with extension `.pdf`
(lower-cased), appending each to the local list and downloading it; a failing
download raises, keeping the disk as written so far and discarding the local
list. -/
def processAtts : List String → List AttachmentInfo →
    Except (List String) (List String × List String)
  | disk, [] => Except.ok ([], disk)
  | disk, a :: rest =>
    if extOf a.name = ".pdf".data then
      if a.downloadOk then
        match processAtts (diskWrite disk a.name) rest with
        | Except.ok (ns, disk1) => Except.ok (a.name :: ns, disk1)
        | Except.error d => Except.error d
      else Except.error disk
    else processAtts disk rest

/-- Processing of one message id: fetch the detail (raising on failure), run
the attachment loop, extract the body through the Text Extractor when the
content type equals the string compared against in the source, record a
`mail_dict` entry only when some PDF was retained, and always record the
`attachment_dict` entry. -/
def processMsg (env : ApiEnv) (st : FetchSt) (id : String) : Except FetchSt FetchSt :=
  match env.detail id with
  | none => Except.error st
  | some ed =>
    match processAtts st.disk ed.attachments with
    | Except.error disk1 => Except.error { st with disk := disk1 }
    | Except.ok (atts, disk1) =>
      let body :=
        if ed.bodyContentType = "text/html" then
          extract_text_from_html env.getText ed.body
        else ed.body
      let mail1 :=
        if atts = [] then st.mail
        else dinsert st.mail id { sender := ed.sender, date := ed.date, subject := ed.subject, body := body }
      Except.ok { mail := mail1, attach := dinsert st.attach id atts, disk := disk1 }

/-- The `for message in messages` loop; a raised request failure aborts it. -/
def processMsgs (env : ApiEnv) : FetchSt → List String → Except FetchSt FetchSt
  | st, [] => Except.ok st
  | st, id :: rest =>
    match processMsg env st id with
    | Except.ok st1 => processMsgs env st1 rest
    | e => e

/-- The `while True` pagination loop. A request past the end of the page list
fails. After the message loop, `next_link` is read from the `response`
variable, which for a NON-EMPTY page is the last per-message response (a
message detail, or an attachment download, neither of which yields a cursor:
the detail JSON has no `@odata.nextLink` and decoding a binary download
raises a caught RequestException, returning the same accumulated state); only
an EMPTY page still has the listing response in `response`, so only then is
the page's own cursor consulted. -/
def fetchGo (env : ApiEnv) : Nat → Nat → FetchSt → Except FetchSt FetchSt
  | 0, _, st => Except.ok st
  | Nat.succ fuel, idx, st =>
    match env.pages[idx]? with
    | none => Except.error st
    | some none => Except.error st
    | some (some pg) =>
      match processMsgs env st pg.msgs with
      | Except.error st1 => Except.error st1
      | Except.ok st1 =>
        let nl := if pg.msgs = [] then pg.hasNext else false
        if nl then fetchGo env fuel (idx + 1) st1 else Except.ok st1

/-- The empty initial fetch state. -/
def initFetchSt : FetchSt :=
  { mail := [], attach := [], disk := [] }

/-- Embedding of `download_office365_attachments`: the pagination loop inside
`try`, with the `except requests.exceptions.RequestException` handler
returning the dictionaries accumulated so far. -/
def download_office365_attachments (env : ApiEnv) : FetchSt :=
  match fetchGo env (env.pages.length + 1) 0 initFetchSt with
  | Except.ok st => st
  | Except.error st => st

/-- Message ids listed on the pages from index `idx` on (failed listings
contribute nothing). -/
def idsFrom (env : ApiEnv) (idx : Nat) : List String :=
  ((env.pages.drop idx).map (fun o => match o with | some p => p.msgs | none => [])).flatten

/-- Modelled from the spec words of C4 (`every message ID whose
AttachmentIndex entry contains this exact filename`), for comparison with the
source's `matchingKeys`: owners are keys whose value list has the staged name
as a member, under filename equality. -/
def exactOwners (attach : List (String × List String)) (f : String) : List String :=
  (attach.filter (fun kv => f ∈ kv.2)).map Prod.fst

/-- Collapsing an Except result to the state it carries: the fetch loop
returns its accumulated state both on normal completion and through the
exception handler. -/
def exSt : Except FetchSt FetchSt → FetchSt
  | Except.ok st => st
  | Except.error st => st

/-- Invariant tying the fetcher's two dictionaries and the staging disk
together: an attachment entry with an empty list has no mail entry; one with
a non-empty list has a mail entry and all its files on disk; and every mail
key is an attachment key. -/
def Inv5 (st : FetchSt) : Prop :=
  (∀ p ∈ st.attach,
    (p.2 = [] → alookup p.1 st.mail = none) ∧
    (p.2 ≠ [] → (alookup p.1 st.mail).isSome = true ∧ ∀ x ∈ p.2, x ∈ st.disk)) ∧
  (∀ k, (alookup k st.mail).isSome = true → (alookup k st.attach).isSome = true)

/-- Invariant for body extraction: every recorded mail body is the raw
detail body, passed through the Text Extractor exactly when the content type
equals the string the source compares against. -/
def BodyInv (env : ApiEnv) (st : FetchSt) : Prop :=
  ∀ p ∈ st.mail, ∃ ed, env.detail p.1 = some ed ∧
    p.2.body = (if ed.bodyContentType = "text/html" then
      extract_text_from_html env.getText ed.body else ed.body)

/-- Concrete staging state holding one file whose stem is a filename-rule
key but which no message owns. -/
def fsA : FS :=
  { staging := ["170792.pdf"], unclassified := [], unclassifiedCreated := false,
    dests := [], removedStaging := false }

/-- Concrete configuration containing the label the filename rule would
resolve. -/
def cfgA : List (String × String) := [("Pension C", "destPC")]

/-- First colliding message: its subject matches a subject rule. -/
def mailEntryM1 : MailInfo :=
  { sender := "s", date := "d",
    subject := "xx [Not Virus Scanned] WOQOD - Fahes - Account Statement & Portfolio yy",
    body := "b" }

/-- Second colliding message: matches nothing. -/
def mailEntryM2 : MailInfo :=
  { sender := "s", date := "d", subject := "nothing", body := "b" }

/-- The two-message mail dictionary for the collision scenario. -/
def mail3 : List (String × MailInfo) := [("m1", mailEntryM1), ("m2", mailEntryM2)]

/-- Concrete attachment dictionary in which both messages list the same
staged filename (a filename collision). -/
def attach3 : List (String × List String) := [("m1", ["a.pdf"]), ("m2", ["a.pdf"])]

/-- Concrete staging state holding the collided file. -/
def fs3 : FS :=
  { staging := ["a.pdf"], unclassified := [], unclassifiedCreated := false,
    dests := [], removedStaging := false }

/-- Concrete configuration for the collision scenario. -/
def cfg3 : List (String × String) := [("Fahes", "destF")]

/-- The state after the first owning message of `attach3` routed the file
via the subject rule. -/
def fs3r : FS :=
  { staging := [], unclassified := [], unclassifiedCreated := false,
    dests := [("destF", ["a.pdf"])], removedStaging := false }

/-- A message whose subject matches a subject rule while its body also
matches a body rule. -/
def mailEntryK1 : MailInfo :=
  { sender := "s", date := "d",
    subject := "aa [Not Virus Scanned] WOQOD - Fahes - Account Statement & Portfolio bb",
    body := "OQIC zz" }

/-- The single-owner mail dictionary for the precedence scenario. -/
def mailC2 : List (String × MailInfo) := [("k1", mailEntryK1)]

/-- Attachment dictionary for the single-owner precedence scenario. -/
def attachC2 : List (String × List String) := [("k1", ["b.pdf"])]

/-- Configuration containing both the subject-rule and the body-rule label. -/
def cfgC2 : List (String × String) := [("Fahes", "dF"), ("Oman", "dO")]

/-- Staging state for the single-owner precedence scenario. -/
def fsC2 : FS :=
  { staging := ["b.pdf"], unclassified := [], unclassifiedCreated := false,
    dests := [], removedStaging := false }

/-- Mail dictionary owning `170792.pdf` but matching no subject or body
rule, so the filename tier fires. -/
def mailC9 : List (String × MailInfo) :=
  [("m1", { sender := "s", date := "d", subject := "x", body := "y" })]

/-- Attachment dictionary for the cleanup scenario. -/
def attachC9 : List (String × List String) := [("m1", ["170792.pdf"])]

/-- Configuration for the cleanup scenario. -/
def cfgC9 : List (String × String) := [("Pension C", "dP")]

/-- A message detail response with no attachments. -/
def edEmpty : EmailData :=
  { attachments := [], sender := "s", date := "d", subject := "t", body := "b",
    bodyContentType := "text" }

/-- Two-page environment whose first page is non-empty and carries a cursor
to the second page. -/
def env6 : ApiEnv :=
  { pages := [some { msgs := ["m1"], hasNext := true },
      some { msgs := ["m2"], hasNext := false }],
    detail := fun id => if id = "m1" then some edEmpty else
      if id = "m2" then some edEmpty else none,
    getText := fun s => s }

/-- A successfully downloadable PDF attachment. -/
def attW : AttachmentInfo :=
  { name := "a.pdf", contentType := "application/pdf", downloadOk := true }

/-- Detail response carrying one PDF attachment. -/
def edW : EmailData :=
  { attachments := [attW], sender := "s", date := "d", subject := "subj",
    body := "b", bodyContentType := "text" }

/-- One-page environment with a single message carrying one PDF attachment. -/
def envW : ApiEnv :=
  { pages := [some { msgs := ["w1"], hasNext := false }],
    detail := fun id => if id = "w1" then some edW else none,
    getText := fun s => s }

/-- A PDF attachment on the HTML-body message. -/
def attH : AttachmentInfo :=
  { name := "x.pdf", contentType := "ct", downloadOk := true }

/-- Detail response whose body is HTML. -/
def edH : EmailData :=
  { attachments := [attH], sender := "s", date := "d", subject := "subj",
    body := "<p>B</p>", bodyContentType := "text/html" }

/-- One-page environment with a single message whose body is HTML. -/
def envH : ApiEnv :=
  { pages := [some { msgs := ["h1"], hasNext := false }],
    detail := fun id => if id = "h1" then some edH else none,
    getText := fun _ => " B " }

/-- Environment whose very first listing request fails. -/
def envE : ApiEnv :=
  { pages := [none], detail := fun _ => none, getText := fun s => s }

/-- The final filesystem state of the cleanup scenario: the one staged file
was routed by the filename rule and the emptied staging directory was
removed. -/
def fsC9r : FS :=
  { staging := [], unclassified := [], unclassifiedCreated := false,
    dests := [("dP", ["170792.pdf"])], removedStaging := true }

/- Helper lemmas about the association-list dictionary operations. -/

theorem alookup_eq_none_iff {α : Type} (k : String) (d : List (String × α)) :
    alookup k d = none ↔ ∀ p ∈ d, p.1 ≠ k := by
  induction d with
  | nil => simp [alookup]
  | cons p ps ih =>
    by_cases h : p.1 = k
    · simp [alookup, h]
    · simp [alookup, h, ih]

theorem alookup_mem {α : Type} {k : String} {v : α} {d : List (String × α)}
    (h : alookup k d = some v) : (k, v) ∈ d := by
  induction d with
  | nil => simp [alookup] at h
  | cons p ps ih =>
    rw [alookup] at h
    split at h
    · next heq =>
      have hp : p = (k, v) := Prod.ext heq (Option.some.inj h)
      exact hp ▸ List.mem_cons_self p ps
    · exact List.mem_cons_of_mem p (ih h)

theorem alookup_append_of_isSome {α : Type} {k : String} {v : α}
    {d : List (String × α)} (e : List (String × α)) (h : alookup k d = some v) :
    alookup k (d ++ e) = some v := by
  induction d with
  | nil => simp [alookup] at h
  | cons p ps ih =>
    rw [List.cons_append]
    rw [alookup] at h
    split at h
    · next heq => simpa [alookup, heq] using h
    · next heq => simpa [alookup, heq] using ih h

theorem alookup_append_of_none {α : Type} {k : String}
    {d : List (String × α)} (e : List (String × α)) (h : alookup k d = none) :
    alookup k (d ++ e) = alookup k e := by
  induction d with
  | nil => simp
  | cons p ps ih =>
    rw [alookup] at h
    split at h
    · simp at h
    · next heq => simpa [alookup, heq] using ih h

theorem dinsert_of_none {α : Type} {k : String} {d : List (String × α)}
    (h : alookup k d = none) (v : α) : dinsert d k v = d ++ [(k, v)] := by
  simp [dinsert, h]

theorem mem_dinsert {α : Type} {p : String × α} {d : List (String × α)}
    {k : String} {v : α} (h : p ∈ dinsert d k v) : p ∈ d ∨ p = (k, v) := by
  unfold dinsert at h
  split at h
  · rcases List.mem_map.mp h with ⟨q, hq, hqe⟩
    by_cases hk : q.1 = k
    · right; rw [← hqe]; simp [hk]
    · left; rw [← hqe]; simp only [hk, if_false]; exact hq
  · rcases List.mem_append.mp h with h1 | h1
    · exact Or.inl h1
    · exact Or.inr (List.mem_singleton.mp h1)

theorem alookup_map_update {α : Type} (d : List (String × α)) (k k' : String)
    (v : α) (h : k' ≠ k) :
    alookup k' (d.map (fun p => if p.1 = k then (k, v) else p)) = alookup k' d := by
  induction d with
  | nil => rfl
  | cons p ps ih =>
    by_cases hp : p.1 = k
    · simp [alookup, hp, Ne.symm h, ih]
    · simp [alookup, hp, ih]

theorem alookup_map_update_self {α : Type} (d : List (String × α)) (k : String)
    (v : α) (hs : (alookup k d).isSome = true) :
    alookup k (d.map (fun p => if p.1 = k then (k, v) else p)) = some v := by
  induction d with
  | nil => simp [alookup] at hs
  | cons p ps ih =>
    by_cases hp : p.1 = k
    · simp [alookup, hp]
    · simp only [alookup, hp, if_false] at hs
      simpa [alookup, hp] using ih hs

theorem alookup_dinsert_self {α : Type} (d : List (String × α)) (k : String)
    (v : α) : alookup k (dinsert d k v) = some v := by
  unfold dinsert
  split
  · next hs => exact alookup_map_update_self d k v hs
  · next hs =>
    have hn : alookup k d = none := by
      cases h : alookup k d
      · rfl
      · rw [h] at hs; simp at hs
    rw [alookup_append_of_none _ hn]
    simp [alookup]

theorem alookup_dinsert_ne {α : Type} (d : List (String × α)) {k k' : String}
    (v : α) (h : k' ≠ k) : alookup k' (dinsert d k v) = alookup k' d := by
  unfold dinsert
  split
  · exact alookup_map_update d k k' v h
  · cases h2 : alookup k' d
    · rw [alookup_append_of_none _ h2]; simp [alookup, Ne.symm h]
    · exact alookup_append_of_isSome _ h2

/- Helper lemmas relating the Python string operators to standard notions. -/

theorem isPre_iff (n h : List Char) : isPre n h = true ↔ n <+: h := by
  induction n generalizing h with
  | nil => simp [isPre, List.nil_prefix]
  | cons a as ih =>
    cases h with
    | nil => simp [isPre, List.prefix_nil]
    | cons b bs => simp [isPre, List.cons_prefix_cons, ih]

theorem infixIn_iff (n h : List Char) : infixIn n h = true ↔ n <:+: h := by
  induction h with
  | nil => simp [infixIn, isPre_iff, List.prefix_nil, List.infix_nil]
  | cons b t ih => simp [infixIn, isPre_iff, ih, List.infix_cons_iff]

theorem strIn_iff (a b : String) : strIn a b = true ↔ a.data <:+: b.data :=
  infixIn_iff a.data b.data

theorem mem_matchingKeys_iff (attach : List (String × List String)) (f k : String) :
    k ∈ matchingKeys attach f ↔ ∃ l, (k, l) ∈ attach ∧ ∃ s ∈ l, strIn f s = true := by
  unfold matchingKeys
  simp only [List.mem_map, List.mem_filter, List.any_eq_true]
  constructor
  · rintro ⟨p, ⟨hp, hs⟩, rfl⟩
    exact ⟨p.2, by simpa using hp, hs⟩
  · rintro ⟨l, hl, s, hs, hin⟩
    exact ⟨(k, l), ⟨hl, ⟨s, hs, hin⟩⟩, rfl⟩

/- Helper lemmas about the classifier branches. -/

theorem routeCopy_of_not_mem (cfg : List (String × String)) (fs : FS) (f lab : String)
    (hf : f ∉ fs.staging) :
    (routeCopy cfg fs f lab).1 = fs ∧ (routeCopy cfg fs f lab).2 ≠ none := by
  unfold routeCopy
  split
  · simp
  · rw [if_neg hf]; simp

theorem routeCopy_ok {cfg : List (String × String)} {fs fs1 : FS} {f lab : String}
    (h : routeCopy cfg fs f lab = (fs1, none)) :
    f ∈ fs.staging ∧ fs1.staging = fs.staging.erase f ∧
      fs1.unclassified = fs.unclassified ∧ fs1.unclassifiedCreated = fs.unclassifiedCreated ∧
      fs1.removedStaging = fs.removedStaging := by
  unfold routeCopy at h
  split at h
  · simp at h
  · by_cases hf : f ∈ fs.staging
    · rw [if_pos hf] at h
      rw [Prod.mk.injEq] at h
      obtain ⟨h1, -⟩ := h
      rw [← h1]
      exact ⟨hf, rfl, rfl, rfl, rfl⟩
    · rw [if_neg hf] at h; simp at h

theorem routeCopy_fields (cfg : List (String × String)) (fs : FS) (f lab : String) :
    (routeCopy cfg fs f lab).1.removedStaging = fs.removedStaging ∧
    (routeCopy cfg fs f lab).1.unclassified = fs.unclassified ∧
    (routeCopy cfg fs f lab).1.unclassifiedCreated = fs.unclassifiedCreated := by
  unfold routeCopy
  split
  · simp
  · split <;> simp

theorem routeCopy_ne_keyError (cfg : List (String × String)) (fs : FS) (f lab : String) :
    (routeCopy cfg fs f lab).2 ≠ some CErr.keyError := by
  unfold routeCopy
  split
  · simp
  · split <;> simp

theorem moveToUnclassified_of_not_mem (fs : FS) (f : String) (hf : f ∉ fs.staging) :
    (moveToUnclassified fs f).1.staging = fs.staging ∧
      (moveToUnclassified fs f).1.dests = fs.dests ∧
      (moveToUnclassified fs f).2 = some CErr.fileNotFound := by
  unfold moveToUnclassified
  simp [hf]

theorem moveToUnclassified_ok {fs fs1 : FS} {f : String}
    (h : moveToUnclassified fs f = (fs1, none)) :
    f ∈ fs.staging ∧ fs1.staging = fs.staging.erase f := by
  unfold moveToUnclassified at h
  by_cases hf : f ∈ fs.staging
  · rw [if_pos hf] at h
    rw [Prod.mk.injEq] at h
    obtain ⟨h1, -⟩ := h
    rw [← h1]
    exact ⟨hf, rfl⟩
  · rw [if_neg hf] at h; simp at h

theorem moveToUnclassified_fields (fs : FS) (f : String) :
    (moveToUnclassified fs f).1.removedStaging = fs.removedStaging ∧
    (moveToUnclassified fs f).1.unclassifiedCreated = true := by
  simp only [moveToUnclassified]
  split <;> simp

theorem moveToUnclassified_ne_keyError (fs : FS) (f : String) :
    (moveToUnclassified fs f).2 ≠ some CErr.keyError := by
  simp only [moveToUnclassified]
  split <;> simp

theorem classifyKey_of_not_mem (cfg : List (String × String))
    (mail : List (String × MailInfo)) (fs : FS) (f k : String) (hf : f ∉ fs.staging) :
    (classifyKey cfg mail fs f k).2 ≠ none ∧
    (classifyKey cfg mail fs f k).1.staging = fs.staging ∧
    (classifyKey cfg mail fs f k).1.dests = fs.dests := by
  unfold classifyKey
  split
  · simp
  · split
    · obtain ⟨h1, h2⟩ := routeCopy_of_not_mem cfg fs f _ hf
      exact ⟨h2, by rw [h1], by rw [h1]⟩
    · split
      · obtain ⟨h1, h2⟩ := routeCopy_of_not_mem cfg fs f _ hf
        exact ⟨h2, by rw [h1], by rw [h1]⟩
      · split
        · obtain ⟨h1, h2⟩ := routeCopy_of_not_mem cfg fs f _ hf
          exact ⟨h2, by rw [h1], by rw [h1]⟩
        · obtain ⟨h1, h2, h3⟩ := moveToUnclassified_of_not_mem fs f hf
          exact ⟨by rw [h3]; simp, h1, h2⟩

theorem classifyKey_ok_not_mem {cfg : List (String × String)}
    {mail : List (String × MailInfo)} {fs fs1 : FS} {f k : String}
    (hnd : fs.staging.Nodup) (h : classifyKey cfg mail fs f k = (fs1, none)) :
    f ∉ fs1.staging := by
  unfold classifyKey at h
  split at h
  · simp at h
  · split at h
    · rw [(routeCopy_ok h).2.1]; exact hnd.not_mem_erase
    · split at h
      · rw [(routeCopy_ok h).2.1]; exact hnd.not_mem_erase
      · split at h
        · rw [(routeCopy_ok h).2.1]; exact hnd.not_mem_erase
        · rw [(moveToUnclassified_ok h).2]; exact hnd.not_mem_erase

theorem classifyKey_ne_keyError (cfg : List (String × String))
    (mail : List (String × MailInfo)) (fs : FS) (f k : String)
    (h : (alookup k mail).isSome = true) :
    (classifyKey cfg mail fs f k).2 ≠ some CErr.keyError := by
  unfold classifyKey
  split
  · next hn => rw [hn] at h; simp at h
  · split
    · exact routeCopy_ne_keyError cfg fs f _
    · split
      · exact routeCopy_ne_keyError cfg fs f _
      · split
        · exact routeCopy_ne_keyError cfg fs f _
        · exact moveToUnclassified_ne_keyError fs f

theorem classifyKey_preserves (cfg : List (String × String))
    (mail : List (String × MailInfo)) (fs : FS) (f k : String)
    (hP : fs.unclassified ≠ [] → fs.unclassifiedCreated = true) :
    (classifyKey cfg mail fs f k).1.removedStaging = fs.removedStaging ∧
    ((classifyKey cfg mail fs f k).1.unclassified ≠ [] →
      (classifyKey cfg mail fs f k).1.unclassifiedCreated = true) := by
  unfold classifyKey
  split
  · exact ⟨rfl, hP⟩
  · split
    · obtain ⟨h1, h2, h3⟩ := routeCopy_fields cfg fs f _
      exact ⟨h1, fun hu => by rw [h3]; exact hP (h2 ▸ hu)⟩
    · split
      · obtain ⟨h1, h2, h3⟩ := routeCopy_fields cfg fs f _
        exact ⟨h1, fun hu => by rw [h3]; exact hP (h2 ▸ hu)⟩
      · split
        · obtain ⟨h1, h2, h3⟩ := routeCopy_fields cfg fs f _
          exact ⟨h1, fun hu => by rw [h3]; exact hP (h2 ▸ hu)⟩
        · obtain ⟨h1, h2⟩ := moveToUnclassified_fields fs f
          exact ⟨h1, fun _ => h2⟩

theorem classifyKeys_preserves (cfg : List (String × String))
    (mail : List (String × MailInfo)) (f : String) (ks : List String) :
    ∀ fs : FS, (fs.unclassified ≠ [] → fs.unclassifiedCreated = true) →
      (classifyKeys cfg mail f fs ks).1.removedStaging = fs.removedStaging ∧
      ((classifyKeys cfg mail f fs ks).1.unclassified ≠ [] →
        (classifyKeys cfg mail f fs ks).1.unclassifiedCreated = true) := by
  induction ks with
  | nil => intro fs hP; exact ⟨rfl, hP⟩
  | cons k ks ih =>
    intro fs hP
    have hkp := classifyKey_preserves cfg mail fs f k hP
    rcases hck : classifyKey cfg mail fs f k with ⟨fs1, e⟩
    rw [hck] at hkp
    obtain ⟨h1, h2⟩ := hkp
    cases e with
    | none =>
      obtain ⟨g1, g2⟩ := ih fs1 h2
      simp only [classifyKeys, hck]
      exact ⟨g1.trans h1, g2⟩
    | some err =>
      simp only [classifyKeys, hck]
      exact ⟨h1, h2⟩

theorem classifyFiles_preserves (cfg : List (String × String))
    (mail : List (String × MailInfo)) (attach : List (String × List String))
    (files : List String) :
    ∀ fs : FS, (fs.unclassified ≠ [] → fs.unclassifiedCreated = true) →
      (classifyFiles cfg mail attach fs files).1.removedStaging = fs.removedStaging ∧
      ((classifyFiles cfg mail attach fs files).1.unclassified ≠ [] →
        (classifyFiles cfg mail attach fs files).1.unclassifiedCreated = true) := by
  induction files with
  | nil => intro fs hP; exact ⟨rfl, hP⟩
  | cons f rest ih =>
    intro fs hP
    have hkp := classifyKeys_preserves cfg mail f (matchingKeys attach f) fs hP
    rcases hcf : classifyFile cfg mail attach fs f with ⟨fs1, e⟩
    have hcf2 : classifyKeys cfg mail f fs (matchingKeys attach f) = (fs1, e) := hcf
    rw [hcf2] at hkp
    obtain ⟨h1, h2⟩ := hkp
    cases e with
    | none =>
      obtain ⟨g1, g2⟩ := ih fs1 h2
      simp only [classifyFiles, hcf]
      exact ⟨g1.trans h1, g2⟩
    | some err =>
      simp only [classifyFiles, hcf]
      exact ⟨h1, h2⟩

theorem classifyKeys_ne_keyError (cfg : List (String × String))
    (mail : List (String × MailInfo)) (f : String) (ks : List String) :
    ∀ fs : FS, (∀ k ∈ ks, (alookup k mail).isSome = true) →
      (classifyKeys cfg mail f fs ks).2 ≠ some CErr.keyError := by
  induction ks with
  | nil => intro fs _; simp [classifyKeys]
  | cons k ks ih =>
    intro fs hks
    rcases hck : classifyKey cfg mail fs f k with ⟨fs1, e⟩
    cases e with
    | none =>
      simp only [classifyKeys, hck]
      exact ih fs1 (fun k2 hk2 => hks k2 (List.mem_cons_of_mem _ hk2))
    | some err =>
      have hne := classifyKey_ne_keyError cfg mail fs f k (hks k (List.mem_cons_self _ _))
      rw [hck] at hne
      simp only [classifyKeys, hck]
      simpa using hne

theorem classifyFiles_ne_keyError (cfg : List (String × String))
    (mail : List (String × MailInfo)) (attach : List (String × List String))
    (hinv : ∀ p ∈ attach, p.2 ≠ [] → (alookup p.1 mail).isSome = true)
    (files : List String) :
    ∀ fs : FS, (classifyFiles cfg mail attach fs files).2 ≠ some CErr.keyError := by
  have hmk : ∀ f k, k ∈ matchingKeys attach f → (alookup k mail).isSome = true := by
    intro f k hk
    rcases (mem_matchingKeys_iff attach f k).mp hk with ⟨l, hl, s, hs, -⟩
    refine hinv (k, l) hl ?_
    intro h
    have hl0 : l = [] := h
    subst hl0
    simp at hs
  induction files with
  | nil => intro fs; simp [classifyFiles]
  | cons f rest ih =>
    intro fs
    rcases hcf : classifyFile cfg mail attach fs f with ⟨fs1, e⟩
    cases e with
    | none =>
      simp only [classifyFiles, hcf]
      exact ih fs1
    | some err =>
      have h2 := classifyKeys_ne_keyError cfg mail f (matchingKeys attach f) fs
        (fun k hk => hmk f k hk)
      have hcf2 : classifyKeys cfg mail f fs (matchingKeys attach f) = (fs1, some err) := hcf
      rw [hcf2] at h2
      simp only [classifyFiles, hcf]
      simpa using h2

theorem filter_office365_snd (cfg : List (String × String))
    (mail : List (String × MailInfo)) (attach : List (String × List String))
    (fs0 : FS) :
    (filter_office365_attachments cfg mail attach fs0).2 =
      (classifyFiles cfg mail attach fs0 fs0.staging).2 := by
  unfold filter_office365_attachments
  rcases hc : classifyFiles cfg mail attach fs0 fs0.staging with ⟨fs, e⟩
  cases e with
  | none => split <;> split <;> simp_all
  | some err => rfl

theorem filter_ne_keyError (cfg : List (String × String))
    (mail : List (String × MailInfo)) (attach : List (String × List String))
    (fs0 : FS)
    (hinv : ∀ p ∈ attach, p.2 ≠ [] → (alookup p.1 mail).isSome = true) :
    (filter_office365_attachments cfg mail attach fs0).2 ≠ some CErr.keyError := by
  rw [filter_office365_snd]
  exact classifyFiles_ne_keyError cfg mail attach hinv fs0.staging fs0

/- Helper lemmas about the fetcher. -/

theorem mem_diskWrite_of_mem {disk : List String} {x : String} (n : String)
    (h : x ∈ disk) : x ∈ diskWrite disk n := by
  unfold diskWrite
  split
  · exact h
  · exact List.mem_append_left _ h

theorem mem_diskWrite_self (disk : List String) (n : String) : n ∈ diskWrite disk n := by
  unfold diskWrite
  split
  · next h => exact h
  · exact List.mem_append_right _ (List.mem_singleton.mpr rfl)

theorem processAtts_ok (atts : List AttachmentInfo) :
    ∀ (disk ns disk1 : List String), processAtts disk atts = Except.ok (ns, disk1) →
      (∀ x ∈ disk, x ∈ disk1) ∧ (∀ n ∈ ns, n ∈ disk1) := by
  induction atts with
  | nil =>
    intro disk ns disk1 h
    simp only [processAtts] at h
    injection h with h'
    injection h' with ha hb
    subst ha
    subst hb
    exact ⟨fun x hx => hx, by simp⟩
  | cons a rest ih =>
    intro disk ns disk1 h
    simp only [processAtts] at h
    split at h
    · split at h
      · cases hr : processAtts (diskWrite disk a.name) rest with
        | ok pr =>
          rcases pr with ⟨ns2, d2⟩
          rw [hr] at h
          injection h with h'
          injection h' with ha hb
          subst ha
          subst hb
          obtain ⟨hsub, hns⟩ := ih (diskWrite disk a.name) ns2 d2 hr
          refine ⟨fun x hx => hsub x (mem_diskWrite_of_mem a.name hx), ?_⟩
          intro n hn
          rcases List.mem_cons.mp hn with h1 | h1
          · subst h1; exact hsub _ (mem_diskWrite_self disk a.name)
          · exact hns n h1
        | error d =>
          rw [hr] at h
          exact absurd h (by simp)
      · exact absurd h (by simp)
    · exact ih disk ns disk1 h

theorem processAtts_error (atts : List AttachmentInfo) :
    ∀ (disk d1 : List String), processAtts disk atts = Except.error d1 →
      ∀ x ∈ disk, x ∈ d1 := by
  induction atts with
  | nil => intro disk d1 h; simp [processAtts] at h
  | cons a rest ih =>
    intro disk d1 h
    simp only [processAtts] at h
    split at h
    · split at h
      · cases hr : processAtts (diskWrite disk a.name) rest with
        | ok pr =>
          rcases pr with ⟨ns2, d2⟩
          rw [hr] at h
          exact absurd h (by simp)
        | error d =>
          rw [hr] at h
          injection h with h'
          subst h'
          exact fun x hx => ih (diskWrite disk a.name) d hr x (mem_diskWrite_of_mem a.name hx)
      · injection h with h'
        subst h'
        exact fun x hx => hx
    · exact ih disk d1 h

theorem alookup_singleton {α : Type} (k i : String) (v : α) :
    alookup k [(i, v)] = if i = k then some v else none := rfl

theorem processMsg_error_inv (env : ApiEnv) (st : FetchSt) (id : String) (st1 : FetchSt)
    (h : processMsg env st id = Except.error st1) :
    st1.mail = st.mail ∧ st1.attach = st.attach ∧ (∀ x ∈ st.disk, x ∈ st1.disk) := by
  unfold processMsg at h
  cases hd : env.detail id with
  | none =>
    simp only [hd] at h
    injection h with h'
    subst h'
    exact ⟨rfl, rfl, fun x hx => hx⟩
  | some ed =>
    simp only [hd] at h
    cases ha : processAtts st.disk ed.attachments with
    | error d =>
      rw [ha] at h
      injection h with h'
      subst h'
      exact ⟨rfl, rfl, processAtts_error ed.attachments st.disk d ha⟩
    | ok pr =>
      rcases pr with ⟨atts, disk1⟩
      rw [ha] at h
      exact absurd h (by simp)

theorem processMsg_ok_inv (env : ApiEnv) (st : FetchSt) (id : String) (st1 : FetchSt)
    (hI : Inv5 st) (hfresh : alookup id st.attach = none)
    (h : processMsg env st id = Except.ok st1) :
    Inv5 st1 ∧ (∀ k, alookup k st1.attach ≠ none → k = id ∨ alookup k st.attach ≠ none) := by
  unfold processMsg at h
  cases hd : env.detail id with
  | none => simp [hd] at h
  | some ed =>
    simp only [hd] at h
    cases ha : processAtts st.disk ed.attachments with
    | error d => simp [ha] at h
    | ok pr =>
      rcases pr with ⟨atts, disk1⟩
      simp only [ha] at h
      injection h with h'
      have hat : st1.attach = dinsert st.attach id atts := by rw [← h']
      have hml : st1.mail = (if atts = [] then st.mail else dinsert st.mail id
          { sender := ed.sender, date := ed.date, subject := ed.subject,
            body := if ed.bodyContentType = "text/html" then
              extract_text_from_html env.getText ed.body else ed.body }) := by
        rw [← h']
      have hdk : st1.disk = disk1 := by rw [← h']
      obtain ⟨hdisk, hnsd⟩ := processAtts_ok ed.attachments st.disk atts disk1 ha
      have hne : ∀ p ∈ st.attach, p.1 ≠ id := (alookup_eq_none_iff id st.attach).mp hfresh
      have hfreshMail : alookup id st.mail = none := by
        cases hm : alookup id st.mail with
        | none => rfl
        | some v =>
          have hsome : (alookup id st.attach).isSome = true := hI.2 id (by rw [hm]; rfl)
          rw [hfresh] at hsome
          simp at hsome
      have hattach1 : dinsert st.attach id atts = st.attach ++ [(id, atts)] :=
        dinsert_of_none hfresh atts
      refine ⟨⟨?_, ?_⟩, ?_⟩
      · intro p hp
        rw [hat, hattach1] at hp
        rcases List.mem_append.mp hp with hold | hnew
        · have hne' : p.1 ≠ id := hne p hold
          obtain ⟨h1, h2⟩ := hI.1 p hold
          by_cases hat0 : atts = []
          · rw [hml, if_pos hat0]
            refine ⟨h1, fun hpe => ⟨(h2 hpe).1, fun x hx => ?_⟩⟩
            rw [hdk]
            exact hdisk x ((h2 hpe).2 x hx)
          · rw [hml, if_neg hat0, dinsert_of_none hfreshMail]
            constructor
            · intro hpe
              rw [alookup_append_of_none _ (h1 hpe), alookup_singleton,
                if_neg (Ne.symm hne')]
            · intro hpe
              obtain ⟨hs, hx⟩ := h2 hpe
              obtain ⟨v, hv⟩ := Option.isSome_iff_exists.mp hs
              rw [alookup_append_of_isSome _ hv]
              refine ⟨rfl, fun x hxx => ?_⟩
              rw [hdk]
              exact hdisk x (hx x hxx)
        · have hp2 : p = (id, atts) := List.mem_singleton.mp hnew
          subst hp2
          by_cases hat0 : atts = []
          · rw [hml, if_pos hat0]
            exact ⟨fun _ => hfreshMail, fun hc => absurd hat0 hc⟩
          · rw [hml, if_neg hat0, dinsert_of_none hfreshMail]
            refine ⟨fun hc => absurd hc hat0, fun _ => ⟨?_, ?_⟩⟩
            · rw [alookup_append_of_none _ hfreshMail, alookup_singleton, if_pos rfl]
              rfl
            · intro x hx
              rw [hdk]
              exact hnsd x hx
      · intro k hk
        rw [hat, hattach1]
        by_cases hat0 : atts = []
        · rw [hml, if_pos hat0] at hk
          obtain ⟨v, hv⟩ := Option.isSome_iff_exists.mp (hI.2 k hk)
          rw [alookup_append_of_isSome _ hv]
          rfl
        · rw [hml, if_neg hat0, dinsert_of_none hfreshMail] at hk
          cases hm : alookup k st.mail with
          | some v =>
            have hsome : (alookup k st.attach).isSome = true := hI.2 k (by rw [hm]; rfl)
            obtain ⟨w, hw⟩ := Option.isSome_iff_exists.mp hsome
            rw [alookup_append_of_isSome _ hw]
            rfl
          | none =>
            rw [alookup_append_of_none _ hm, alookup_singleton] at hk
            by_cases hik : id = k
            · subst hik
              rw [alookup_append_of_none _ hfresh, alookup_singleton, if_pos rfl]
              rfl
            · rw [if_neg hik] at hk
              simp at hk
      · intro k hk
        rw [hat, hattach1] at hk
        cases hm : alookup k st.attach with
        | some v => exact Or.inr (by simp [hm])
        | none =>
          rw [alookup_append_of_none _ hm, alookup_singleton] at hk
          by_cases hik : id = k
          · exact Or.inl hik.symm
          · rw [if_neg hik] at hk
            simp at hk

theorem Inv5_init : Inv5 initFetchSt := by
  constructor
  · intro p hp; simp [initFetchSt] at hp
  · intro k hk; simp [initFetchSt, alookup] at hk

theorem processMsgs_inv (env : ApiEnv) (ids : List String) :
    ∀ st : FetchSt, Inv5 st → ids.Nodup →
      (∀ i ∈ ids, alookup i st.attach = none) →
      Inv5 (exSt (processMsgs env st ids)) ∧
      (∀ k, alookup k (exSt (processMsgs env st ids)).attach ≠ none →
        k ∈ ids ∨ alookup k st.attach ≠ none) := by
  induction ids with
  | nil =>
    intro st hI _ _
    exact ⟨hI, fun k hk => Or.inr hk⟩
  | cons id rest ih =>
    intro st hI hnd hfr
    cases hm : processMsg env st id with
    | error st1 =>
      simp only [processMsgs, hm, exSt]
      obtain ⟨g1, g2, g3⟩ := processMsg_error_inv env st id st1 hm
      refine ⟨⟨?_, ?_⟩, ?_⟩
      · intro p hp
        rw [g2] at hp
        obtain ⟨h1, h2⟩ := hI.1 p hp
        rw [g1]
        exact ⟨h1, fun hpe => ⟨(h2 hpe).1, fun x hx => g3 x ((h2 hpe).2 x hx)⟩⟩
      · intro k hk
        rw [g1] at hk
        rw [g2]
        exact hI.2 k hk
      · intro k hk
        rw [g2] at hk
        exact Or.inr hk
    | ok st1 =>
      simp only [processMsgs, hm]
      have hfr0 : alookup id st.attach = none := hfr id (List.mem_cons_self _ _)
      obtain ⟨hI1, hprov1⟩ := processMsg_ok_inv env st id st1 hI hfr0 hm
      obtain ⟨hnotin, hndr⟩ := List.nodup_cons.mp hnd
      have hfr1 : ∀ i ∈ rest, alookup i st1.attach = none := by
        intro i hi
        cases hc : alookup i st1.attach with
        | none => rfl
        | some v =>
          rcases hprov1 i (by rw [hc]; simp) with h1 | h1
          · exact absurd (h1 ▸ hi) hnotin
          · exact absurd (hfr i (List.mem_cons_of_mem _ hi)) h1
      obtain ⟨hIf, hprovf⟩ := ih st1 hI1 hndr hfr1
      refine ⟨hIf, ?_⟩
      intro k hk
      rcases hprovf k hk with h1 | h1
      · exact Or.inl (List.mem_cons_of_mem _ h1)
      · rcases hprov1 k h1 with h2 | h2
        · exact Or.inl (by rw [h2]; exact List.mem_cons_self _ _)
        · exact Or.inr h2

theorem idsFrom_eq_page {env : ApiEnv} {idx : Nat} {pg : Page}
    (h : env.pages[idx]? = some (some pg)) :
    idsFrom env idx = pg.msgs ++ idsFrom env (idx + 1) := by
  obtain ⟨hlt, hval⟩ := List.getElem?_eq_some.mp h
  unfold idsFrom
  rw [List.drop_eq_getElem_cons hlt, List.map_cons, List.flatten_cons, hval]

theorem fetchGo_inv (env : ApiEnv) (fuel : Nat) :
    ∀ (idx : Nat) (st : FetchSt), Inv5 st → (idsFrom env idx).Nodup →
      (∀ i ∈ idsFrom env idx, alookup i st.attach = none) →
      Inv5 (exSt (fetchGo env fuel idx st)) := by
  induction fuel with
  | zero => intro idx st hI _ _; exact hI
  | succ fuel ih =>
    intro idx st hI hnd hfr
    cases hp : env.pages[idx]? with
    | none => simp only [fetchGo, hp, exSt]; exact hI
    | some o =>
      cases o with
      | none => simp only [fetchGo, hp, exSt]; exact hI
      | some pg =>
        have hids := idsFrom_eq_page hp
        rw [hids] at hnd hfr
        obtain ⟨hnd1, hnd2, hdisj⟩ := List.nodup_append.mp hnd
        obtain ⟨hImid, hprov⟩ := processMsgs_inv env pg.msgs st hI hnd1
          (fun i hi => hfr i (List.mem_append_left _ hi))
        cases hms : processMsgs env st pg.msgs with
        | error st1 =>
          rw [hms] at hImid
          simp only [fetchGo, hp, hms, exSt]
          exact hImid
        | ok st1 =>
          rw [hms] at hImid hprov
          simp only [exSt] at hImid hprov
          simp only [fetchGo, hp, hms]
          by_cases hb : (if pg.msgs = [] then pg.hasNext else false) = true
          · rw [if_pos hb]
            apply ih (idx + 1) st1 hImid hnd2
            intro i hi
            cases hc : alookup i st1.attach with
            | none => rfl
            | some v =>
              rcases hprov i (by rw [hc]; simp) with h1 | h1
              · exact absurd hi (hdisj h1)
              · exact absurd (hfr i (List.mem_append_right _ hi)) h1
          · rw [if_neg hb]
            exact hImid

theorem download_eq_exSt (env : ApiEnv) :
    download_office365_attachments env =
      exSt (fetchGo env (env.pages.length + 1) 0 initFetchSt) := by
  unfold download_office365_attachments
  cases h : fetchGo env (env.pages.length + 1) 0 initFetchSt <;> rfl

theorem download_inv (env : ApiEnv) (h : (idsFrom env 0).Nodup) :
    Inv5 (download_office365_attachments env) := by
  rw [download_eq_exSt]
  exact fetchGo_inv env (env.pages.length + 1) 0 initFetchSt Inv5_init h
    (fun i _ => rfl)

theorem BodyInv_init (env : ApiEnv) : BodyInv env initFetchSt := by
  intro p hp
  simp [initFetchSt] at hp

theorem processMsg_ok_body (env : ApiEnv) (st : FetchSt) (id : String) (st1 : FetchSt)
    (hB : BodyInv env st) (h : processMsg env st id = Except.ok st1) :
    BodyInv env st1 := by
  unfold processMsg at h
  cases hd : env.detail id with
  | none => simp [hd] at h
  | some ed =>
    simp only [hd] at h
    cases ha : processAtts st.disk ed.attachments with
    | error d => simp [ha] at h
    | ok pr =>
      rcases pr with ⟨atts, disk1⟩
      simp only [ha] at h
      injection h with h'
      have hml : st1.mail = (if atts = [] then st.mail else dinsert st.mail id
          { sender := ed.sender, date := ed.date, subject := ed.subject,
            body := if ed.bodyContentType = "text/html" then
              extract_text_from_html env.getText ed.body else ed.body }) := by
        rw [← h']
      intro p hp
      rw [hml] at hp
      by_cases hat0 : atts = []
      · rw [if_pos hat0] at hp
        exact hB p hp
      · rw [if_neg hat0] at hp
        rcases mem_dinsert hp with hold | hnew
        · exact hB p hold
        · subst hnew
          exact ⟨ed, hd, rfl⟩

theorem processMsg_error_body (env : ApiEnv) (st : FetchSt) (id : String) (st1 : FetchSt)
    (hB : BodyInv env st) (h : processMsg env st id = Except.error st1) :
    BodyInv env st1 := by
  obtain ⟨g1, -, -⟩ := processMsg_error_inv env st id st1 h
  intro p hp
  rw [g1] at hp
  exact hB p hp

theorem processMsgs_body (env : ApiEnv) (ids : List String) :
    ∀ st : FetchSt, BodyInv env st → BodyInv env (exSt (processMsgs env st ids)) := by
  induction ids with
  | nil => intro st hB; exact hB
  | cons id rest ih =>
    intro st hB
    cases hm : processMsg env st id with
    | error st1 =>
      simp only [processMsgs, hm, exSt]
      exact processMsg_error_body env st id st1 hB hm
    | ok st1 =>
      simp only [processMsgs, hm]
      exact ih st1 (processMsg_ok_body env st id st1 hB hm)

theorem fetchGo_body (env : ApiEnv) (fuel : Nat) :
    ∀ (idx : Nat) (st : FetchSt), BodyInv env st →
      BodyInv env (exSt (fetchGo env fuel idx st)) := by
  induction fuel with
  | zero => intro idx st hB; exact hB
  | succ fuel ih =>
    intro idx st hB
    cases hp : env.pages[idx]? with
    | none => simp only [fetchGo, hp, exSt]; exact hB
    | some o =>
      cases o with
      | none => simp only [fetchGo, hp, exSt]; exact hB
      | some pg =>
        have hmid := processMsgs_body env pg.msgs st hB
        cases hms : processMsgs env st pg.msgs with
        | error st1 =>
          rw [hms] at hmid
          simp only [fetchGo, hp, hms, exSt]
          exact hmid
        | ok st1 =>
          rw [hms] at hmid
          simp only [exSt] at hmid
          simp only [fetchGo, hp, hms]
          by_cases hb : (if pg.msgs = [] then pg.hasNext else false) = true
          · rw [if_pos hb]
            exact ih (idx + 1) st1 hmid
          · rw [if_neg hb]
            exact hmid

theorem download_body (env : ApiEnv) :
    BodyInv env (download_office365_attachments env) := by
  rw [download_eq_exSt]
  exact fetchGo_body env (env.pages.length + 1) 0 initFetchSt (BodyInv_init env)

/- Claim theorems. -/

/-- C1 counterexample: a staged file with stem `170792` and no owning message
is NOT routed by the filename-stem rule, although the rule table maps
`170792` to `Pension C` and the configuration resolves that label: the whole
run leaves the file in staging and copies nothing anywhere, refuting the
claim that the filename-stem tier is still evaluated for ownerless files. -/
theorem C1_counterexample :
    filter_office365_attachments cfgA [] [] fsA = (fsA, none) ∧
    fsA.staging = ["170792.pdf"] ∧ fsA.dests = [] ∧
    splitextStem "170792.pdf" = "170792" ∧
    alookup "170792" DocName_filter = some "Pension C" ∧
    alookup "Pension C" cfgA = some "destPC" := by
  decide

/-- C1 (amended): a staged file that no message owns is skipped entirely by
the classifier: since every rule tier lives inside the loop over owning
messages, an empty owning set means no tier (not even the filename-stem
tier) is evaluated, and the file is left in staging untouched. -/
theorem C1_no_owner_skipped (cfg : List (String × String))
    (mail : List (String × MailInfo)) (attach : List (String × List String))
    (fs : FS) (f : String) (h : matchingKeys attach f = []) :
    classifyFile cfg mail attach fs f = (fs, none) := by
  unfold classifyFile
  rw [h]
  rfl

/-- C1 witness: the amended theorem applied to the ownerless `170792.pdf`. -/
theorem C1_witness :
    classifyFile cfgA [] [] fsA "170792.pdf" = (fsA, none) :=
  C1_no_owner_skipped cfgA [] [] fsA "170792.pdf" (by decide)

/-- C2: for a staged file with a single owning message, the subject tier is
evaluated first and short-circuits everything below it: whenever the owner's
subject contains a subject-rule key, the file is copied to that rule's
destination and removed from staging, regardless of what the body (or the
filename) would match. -/
theorem C2_subject_tier_wins (cfg : List (String × String))
    (mail : List (String × MailInfo)) (attach : List (String × List String))
    (fs : FS) (f k : String) (m : MailInfo) (p : String × String) (dest : String)
    (hmk : matchingKeys attach f = [k])
    (hm : alookup k mail = some m)
    (hs : subjectCheck m = some p)
    (hc : alookup p.2 cfg = some dest)
    (hf : f ∈ fs.staging) :
    classifyFile cfg mail attach fs f =
      ({ fs with staging := fs.staging.erase f, dests := addDest fs.dests dest f },
        none) := by
  unfold classifyFile
  rw [hmk]
  simp only [classifyKeys, classifyKey, hm, hs, routeCopy, hc, if_pos hf]

/-- C2 witness: the owner's subject contains the `Fahes` subject key while
its body starts with the `OQIC` body key; the file still lands in the
subject rule's destination. -/
theorem C2_witness :
    classifyFile cfgC2 mailC2 attachC2 fsC2 "b.pdf" =
      ({ fsC2 with staging := fsC2.staging.erase "b.pdf", dests := addDest fsC2.dests "dF" "b.pdf" }, none) :=
  C2_subject_tier_wins cfgC2 mailC2 attachC2 fsC2 "b.pdf" "k1" mailEntryK1
    ("[Not Virus Scanned] WOQOD - Fahes - Account Statement & Portfolio", "Fahes")
    "dF" (by decide) (by decide) (by decide) (by decide) (by decide)

/-- C3 counterexample: `a.pdf` is listed by both messages of `attach3`; the
first owner routes it to `destF` via the subject rule, but the classifier
does NOT stop there: it goes on to process the second owning message and the
run aborts with a file-not-found error (the file is already gone), refuting
the claim that no further owning messages are processed after the first
match. -/
theorem C3_counterexample :
    (filter_office365_attachments cfg3 mail3 attach3 fs3).2 =
      some CErr.fileNotFound ∧
    (filter_office365_attachments cfg3 mail3 attach3 fs3).1 =
      { staging := [], unclassified := [], unclassifiedCreated := true,
        dests := [("destF", ["a.pdf"])], removedStaging := false } := by
  decide

/-- C3 (amended): with two or more owning messages, the first whose
processing succeeds removes the file from staging and fixes the destination
contents, but iteration continues: processing the next owning message
necessarily raises (every branch needs the now-missing file, its mail entry,
or its configuration label), so the run ends in an error while the
destination contents stay exactly as the first owner left them. -/
theorem C3_first_owner_wins_then_error (cfg : List (String × String))
    (mail : List (String × MailInfo)) (attach : List (String × List String))
    (fs fs1 : FS) (f k1 k2 : String) (ks : List String)
    (hnd : fs.staging.Nodup)
    (hmk : matchingKeys attach f = k1 :: k2 :: ks)
    (h1 : classifyKey cfg mail fs f k1 = (fs1, none)) :
    (classifyFile cfg mail attach fs f).2 ≠ none ∧
    (classifyFile cfg mail attach fs f).1.dests = fs1.dests ∧
    f ∉ (classifyFile cfg mail attach fs f).1.staging := by
  have hf1 : f ∉ fs1.staging := classifyKey_ok_not_mem hnd h1
  obtain ⟨e2, s2, d2⟩ := classifyKey_of_not_mem cfg mail fs1 f k2 hf1
  unfold classifyFile
  rw [hmk]
  simp only [classifyKeys, h1]
  rcases hck : classifyKey cfg mail fs1 f k2 with ⟨fs2, e⟩
  rw [hck] at e2 s2 d2
  cases e with
  | none => exact absurd rfl e2
  | some err =>
    simp only [classifyKeys, hck]
    refine ⟨by simp, d2, ?_⟩
    rw [s2]
    exact hf1

/-- C3 witness: the amended theorem at the concrete collision of `attach3`,
where the first owner routed the file to `destF`. -/
theorem C3_witness :
    (classifyFile cfg3 mail3 attach3 fs3 "a.pdf").2 ≠ none ∧
    (classifyFile cfg3 mail3 attach3 fs3 "a.pdf").1.dests = fs3r.dests ∧
    "a.pdf" ∉ (classifyFile cfg3 mail3 attach3 fs3 "a.pdf").1.staging :=
  C3_first_owner_wins_then_error cfg3 mail3 attach3 fs3 fs3r "a.pdf" "m1" "m2" []
    (by decide) (by decide) (by decide)

/-- C4 counterexample: a staged file named `a.pdf` is matched to a message
whose only listed filename is `xa.pdf`: the code's owner computation uses
Python substring containment, while the spec's exact-filename membership
yields no owner. -/
theorem C4_counterexample :
    matchingKeys [("m1", ["xa.pdf"])] "a.pdf" = ["m1"] ∧
    exactOwners [("m1", ["xa.pdf"])] "a.pdf" = [] := by
  decide

/-- C4 (amended): the owning set is exactly the set of message ids whose
attachment entry lists some filename that CONTAINS the staged name as a
contiguous substring; `strIn` is genuine substring containment. -/
theorem C4_owners_by_substring :
    (∀ (attach : List (String × List String)) (f k : String),
      k ∈ matchingKeys attach f ↔
        ∃ l, (k, l) ∈ attach ∧ ∃ s ∈ l, strIn f s = true) ∧
    (∀ a b : String, strIn a b = true ↔ a.data <:+: b.data) :=
  ⟨mem_matchingKeys_iff, strIn_iff⟩

/-- C5: after fetch (with message ids unique across pages, as the data model
assumes), every id that the attachment index maps to the empty list is
absent from the mail index, and every id it maps to a non-empty list is a
mail-index key with every listed filename written to the staging disk. -/
theorem C5_index_invariants (env : ApiEnv) (h : (idsFrom env 0).Nodup)
    (id : String) (l : List String)
    (hl : alookup id (download_office365_attachments env).attach = some l) :
    (l = [] → alookup id (download_office365_attachments env).mail = none) ∧
    (l ≠ [] → (alookup id (download_office365_attachments env).mail).isSome = true ∧
      ∀ x ∈ l, x ∈ (download_office365_attachments env).disk) :=
  (download_inv env h).1 (id, l) (alookup_mem hl)

/-- C5 witness: in `envW` the single message retains one PDF; its id is a
mail-index key and the file is on the staging disk. -/
theorem C5_witness :
    (alookup "w1" (download_office365_attachments envW).mail).isSome = true ∧
    ∀ x ∈ ["a.pdf"], x ∈ (download_office365_attachments envW).disk :=
  (C5_index_invariants envW (by decide) "w1" ["a.pdf"] (by decide)).2 (by decide)

/-- C6: the code reads the pagination cursor from the stale `response`
variable (the last per-message response) rather than from the page-list
response. In `env6`, page 0 is non-empty and its LIST response carries a
cursor to page 1, yet the fetch stops after page 0: only `m1` is processed
and `m2` is never fetched — contradicting the claim (and the code's own
comment `Check if there are more pages of emails`). -/
theorem C6_pagination_bug :
    env6.pages[0]? = some (some { msgs := ["m1"], hasNext := true }) ∧
    env6.pages.length = 2 ∧
    (download_office365_attachments env6).attach = [("m1", [])] ∧
    alookup "m2" (download_office365_attachments env6).attach = none := by
  refine ⟨rfl, rfl, by decide, by decide⟩

/-- C7: when any request of the pagination loop fails, the exception handler
returns exactly the state accumulated up to the failure point: the caller
receives the partial mail and attachment indexes, never a failure signal. -/
theorem C7_failure_returns_accumulated (env : ApiEnv) (st : FetchSt)
    (h : fetchGo env (env.pages.length + 1) 0 initFetchSt = Except.error st) :
    download_office365_attachments env = st := by
  unfold download_office365_attachments
  rw [h]

/-- C7 witness: in `envE` the very first listing request fails; fetch
returns the empty accumulated state instead of raising. -/
theorem C7_witness : download_office365_attachments envE = initFetchSt :=
  C7_failure_returns_accumulated envE initFetchSt (by rfl)

/-- C8: every message stored in the mail index has its body equal to the
Text Extractor's output on the raw detail body when the body content type is
the HTML content type the code compares against, and equal to the raw body
unchanged otherwise. -/
theorem C8_body_extraction (env : ApiEnv) (id : String) (mi : MailInfo)
    (h : (id, mi) ∈ (download_office365_attachments env).mail) :
    ∃ ed, env.detail id = some ed ∧
      mi.body = (if ed.bodyContentType = "text/html" then
        extract_text_from_html env.getText ed.body else ed.body) :=
  download_body env (id, mi) h

/-- C8 witness: in `envH` the message body is HTML; the stored body is the
stripped collaborator output `B`. -/
theorem C8_witness :
    ∃ ed, envH.detail "h1" = some ed ∧
      ({ sender := "s", date := "d", subject := "subj", body := "B" } : MailInfo).body =
        (if ed.bodyContentType = "text/html" then
          extract_text_from_html envH.getText ed.body else ed.body) :=
  C8_body_extraction envH "h1"
    { sender := "s", date := "d", subject := "subj", body := "B" } (by decide)

/-- C9: on a run that completes without an exception, the staging directory
is removed exactly when its final listing is empty — no files left and no
`Unclassified` subfolder was created; in particular a non-empty
`Unclassified` subfolder forces retention. -/
theorem C9_cleanup (cfg : List (String × String)) (mail : List (String × MailInfo))
    (attach : List (String × List String)) (fs0 fs : FS)
    (h0r : fs0.removedStaging = false)
    (h0u : fs0.unclassified ≠ [] → fs0.unclassifiedCreated = true)
    (hrun : filter_office365_attachments cfg mail attach fs0 = (fs, none)) :
    (fs.removedStaging = true ↔ (fs.staging = [] ∧ fs.unclassifiedCreated = false)) ∧
    (fs.unclassified ≠ [] → fs.removedStaging = false) := by
  unfold filter_office365_attachments at hrun
  have hkp := classifyFiles_preserves cfg mail attach fs0.staging fs0 h0u
  rcases hc : classifyFiles cfg mail attach fs0 fs0.staging with ⟨fsc, e⟩
  rw [hc] at hrun hkp
  have hrm : fsc.removedStaging = fs0.removedStaging := hkp.1
  have hP : fsc.unclassified ≠ [] → fsc.unclassifiedCreated = true := hkp.2
  cases e with
  | some err => simp at hrun
  | none =>
    have hrun2 : (if fsc.staging = [] ∧ fsc.unclassifiedCreated = false
        then ({ fsc with removedStaging := true }, none)
        else (fsc, none)) = (fs, none) := hrun
    by_cases hcond : fsc.staging = [] ∧ fsc.unclassifiedCreated = false
    · rw [if_pos hcond] at hrun2
      rw [Prod.mk.injEq] at hrun2
      obtain ⟨hfs, -⟩ := hrun2
      subst hfs
      refine ⟨⟨fun _ => hcond, fun _ => rfl⟩, ?_⟩
      intro hu
      have hcr := hP hu
      rw [hcond.2] at hcr
      exact absurd hcr (by simp)
    · rw [if_neg hcond] at hrun2
      rw [Prod.mk.injEq] at hrun2
      obtain ⟨hfs, -⟩ := hrun2
      subst hfs
      constructor
      · constructor
        · intro hr
          rw [hrm, h0r] at hr
          exact absurd hr (by simp)
        · intro hco
          exact absurd hco hcond
      · intro _
        rw [hrm, h0r]

/-- C9 witness: a run that routes the single staged file by the filename
rule, empties staging, never creates `Unclassified`, and removes the staging
directory. -/
theorem C9_witness :
    (fsC9r.removedStaging = true ↔ (fsC9r.staging = [] ∧ fsC9r.unclassifiedCreated = false)) ∧
    (fsC9r.unclassified ≠ [] → fsC9r.removedStaging = false) :=
  C9_cleanup cfgC9 mailC9 attachC9 fsA fsC9r rfl (by decide) (by decide)

/-- C10: with unique message ids, the fetcher's output satisfies the
implicit invariant — every attachment-index key with a non-empty list is a
mail-index key — and consequently the classifier, run on fetcher-produced
dictionaries with any staging listing, can never raise the mail-dictionary
KeyError: that error branch is unreachable. -/
theorem C10_keyError_unreachable (env : ApiEnv) (h : (idsFrom env 0).Nodup) :
    (∀ id l, alookup id (download_office365_attachments env).attach = some l →
      l ≠ [] → (alookup id (download_office365_attachments env).mail).isSome = true) ∧
    (∀ (cfg : List (String × String)) (fs0 : FS),
      (filter_office365_attachments cfg (download_office365_attachments env).mail
        (download_office365_attachments env).attach fs0).2 ≠ some CErr.keyError) := by
  have hinv := download_inv env h
  constructor
  · intro id l hl hne
    exact ((hinv.1 (id, l) (alookup_mem hl)).2 hne).1
  · intro cfg fs0
    exact filter_ne_keyError cfg _ _ fs0 (fun p hp hne => ((hinv.1 p hp).2 hne).1)

/-- C10 witness: the invariant and the unreachability at the concrete
environment `envW` (with an arbitrary staging state). -/
theorem C10_witness :
    (alookup "w1" (download_office365_attachments envW).mail).isSome = true ∧
    (filter_office365_attachments [] (download_office365_attachments envW).mail
      (download_office365_attachments envW).attach fsA).2 ≠ some CErr.keyError :=
  ⟨(C10_keyError_unreachable envW (by decide)).1 "w1" ["a.pdf"] (by decide) (by decide),
   (C10_keyError_unreachable envW (by decide)).2 [] fsA⟩
